import Mathlib

/-!
Shallow embedding of the `bronco_trade_agents` data-collection pipeline
(market clock, collector scheduling, REST client retry/pagination, and the
repository mapping/insert layer), together with theorems settling the
behavioural claims about it.

Conventions of the embedding:
* a local time of day is a `Nat` count of seconds since local midnight
  (Python `datetime.time` compares lexicographically, which agrees with
  the numeric order of seconds-since-midnight);
* a date is a `Nat` count of days since 1970-01-01 (a Thursday), so
  Python's `date.weekday()` (Monday = 0 … Sunday = 6) is `(d + 3) % 7`;
* an ET instant is a (date, time-of-day) pair; durations are wall-clock
  seconds (the market-hour logic of the source operates entirely on ET
  wall-clock values);
* Python `dict.get` is `Option`, Python falsiness tests are modelled by
  explicit `Option`/emptiness checks matching the tested type.
-/

namespace Bronco

/-- Python `date.weekday()`: Monday = 0 … Sunday = 6.
1970-01-01 (day 0) was a Thursday, i.e. weekday 3. -/
def weekday (d : Nat) : Nat := (d + 3) % 7

/-- `config.MarketHours`: the six local session boundaries (ET). -/
structure MarketHours where
  pre_market_open : Nat
  pre_market_close : Nat
  regular_open : Nat
  regular_close : Nat
  after_hours_open : Nat
  after_hours_close : Nat
deriving DecidableEq, Repr

/-- The defaults of `config.MarketHours`:
04:00 / 09:30 / 09:30 / 16:00 / 16:00 / 20:00 ET. -/
def defaultHours : MarketHours :=
  { pre_market_open := 4 * 3600
    pre_market_close := 9 * 3600 + 1800
    regular_open := 9 * 3600 + 1800
    regular_close := 16 * 3600
    after_hours_open := 16 * 3600
    after_hours_close := 20 * 3600 }

/-- `models.MarketCalendar`: one special-day row, keyed by date.
`status` is a free string in the store (`'open' | 'closed' | 'early_close'`);
only `status` and `close_time` are read by the clock. -/
structure CalendarEntry where
  status : String
  close_time : Option Nat := none
  open_time : Option Nat := none
deriving DecidableEq, Repr

/-- `MarketClock._calendar_cache`: the in-memory date → entry map. -/
abbrev CalendarCache := Nat → Option CalendarEntry

/-- `market_clock.MarketPhase`. -/
inductive MarketPhase where
  | CLOSED
  | PRE_MARKET
  | REGULAR
  | AFTER_HOURS
deriving DecidableEq, Repr

/-- The weekend check plus regular weekday intervals of
`MarketClock.get_market_phase` (source lines 140-154), reached when the
calendar cache has no entry for the date or the entry's status is neither
`'closed'` nor `'early_close'`. -/
def regular_phase (hours : MarketHours) (d : Nat) (t : Nat) : MarketPhase :=
  if 5 ≤ weekday d then .CLOSED
  else if hours.pre_market_open ≤ t ∧ t < hours.regular_open then .PRE_MARKET
  else if hours.regular_open ≤ t ∧ t < hours.regular_close then .REGULAR
  else if hours.after_hours_open ≤ t ∧ t < hours.after_hours_close then .AFTER_HOURS
  else .CLOSED

/-- `MarketClock.get_market_phase` on an ET instant `(d, t)`.
Mirrors source lines 102-154: calendar-closed short-circuit; the
early-close branch (close-time guard `cal_entry.close_time and
current_time >= cal_entry.close_time`, then the pre/regular windows with
`effective_regular_close = cal_entry.close_time or hours.regular_close`);
otherwise the weekend check and the regular intervals.
(`datetime.time` objects are always truthy in Python ≥ 3.5, so the two
`and`/`or` falsiness tests on `close_time` are `None` tests.) -/
def get_market_phase (hours : MarketHours) (cache : CalendarCache)
    (d : Nat) (t : Nat) : MarketPhase :=
  match cache d with
  | some cal =>
      if cal.status = "closed" then .CLOSED
      else if cal.status = "early_close" then
        if cal.close_time.any (fun ct => decide (ct ≤ t)) then .CLOSED
        else
          let effective_regular_close := cal.close_time.getD hours.regular_close
          if hours.pre_market_open ≤ t ∧ t < hours.regular_open then .PRE_MARKET
          else if hours.regular_open ≤ t ∧ t < effective_regular_close then .REGULAR
          else .CLOSED
      else regular_phase hours d t
  | none => regular_phase hours d t

/-- `MarketClock.is_market_open` at the ET instant `(d, t)`. -/
def is_market_open (hours : MarketHours) (cache : CalendarCache)
    (d : Nat) (t : Nat) (include_extended : Bool) : Bool :=
  let phase := get_market_phase hours cache d t
  if phase = .CLOSED then false
  else if !include_extended then phase == .REGULAR
  else phase == .PRE_MARKET || phase == .REGULAR || phase == .AFTER_HOURS

/-- `DataCollector.GRACE_PERIOD_MINUTES`. -/
def GRACE_PERIOD_MINUTES : Nat := 15

/-- `DataCollector.should_run` at the current ET instant `(d, t)`.
Mirrors source lines 32-70: open (extended) wins; otherwise the grace
branch requires phase `CLOSED`, `ah_close ≤ t < grace_end` where
`grace_end` is the time-of-day of `combine(date, ah_close) + 15 min`
(hence the `% 86400`), and `weekday < 5`. -/
def should_run (hours : MarketHours) (cache : CalendarCache)
    (d : Nat) (t : Nat) : Bool :=
  if is_market_open hours cache d t true then true
  else
    let phase := get_market_phase hours cache d t
    if phase = .CLOSED then
      let ah_close := hours.after_hours_close
      let grace_end := (ah_close + GRACE_PERIOD_MINUTES * 60) % 86400
      if ah_close ≤ t ∧ t < grace_end then
        if weekday d < 5 then true else false
      else false
    else false

/-- Wall-clock seconds of the ET instant `(d, t)` since the epoch. -/
def instantSec (d : Nat) (t : Nat) : Nat := d * 86400 + t

/-- The `while True` day-advancing loop of
`MarketClock.time_until_next_open` (source lines 189-201), given explicit
fuel: starting at `day`, return the first day that is neither a calendar
`'closed'` entry nor a weekend. The source loop has no bound; `fuel` only
serves Lean totality and every theorem below supplies enough of it. -/
def next_open_day (cache : CalendarCache) : Nat → Nat → Nat
  | 0, day => day
  | fuel + 1, day =>
      let is_holiday := (cache day).elim false (fun c => c.status == "closed")
      let is_weekend := 5 ≤ weekday day
      if !is_holiday && !is_weekend then day
      else next_open_day cache fuel (day + 1)

/-- `MarketClock.time_until_next_open` at the current ET instant `(d, t)`,
in wall-clock seconds. If `now` is before today's `pre_market_open` the
difference to today's open is returned (no calendar or weekend check);
otherwise the loop searches from tomorrow for the next non-holiday
non-weekend day and the difference to its `pre_market_open` is returned. -/
def time_until_next_open (hours : MarketHours) (cache : CalendarCache)
    (fuel : Nat) (d : Nat) (t : Nat) : Int :=
  let today_open := instantSec d hours.pre_market_open
  let now := instantSec d t
  if now < today_open then (today_open : Int) - (now : Int)
  else
    let nd := next_open_day cache fuel (d + 1)
    (instantSec nd hours.pre_market_open : Int) - (now : Int)

/-- 2024-07-04 as days since 1970-01-01; `weekday = 3` (Thursday). -/
def d20240704 : Nat := 19908

/-- A calendar holding exactly `{2024-07-04 : closed}` (scenario S6). -/
def cacheJuly4 : CalendarCache :=
  fun d => if d = d20240704 then some { status := "closed" } else none

/-- A calendar holding one `early_close` entry with **absent** close time
on 2024-07-02 (a Tuesday, day 19906). -/
def cacheEarlyNoTime : CalendarCache :=
  fun d => if d = 19906 then some { status := "early_close" } else none

/-- The day-qualification test of the `time_until_next_open` loop body:
`day` is neither a calendar-`'closed'` entry nor a weekend. -/
def is_open_day (cache : CalendarCache) (day : Nat) : Bool :=
  !((cache day).elim false (fun c => c.status == "closed")) && !(5 ≤ weekday day)

lemma next_open_day_succ (cache : CalendarCache) (fuel : Nat) (day : Nat) :
    next_open_day cache (fuel + 1) day =
      if is_open_day cache day then day else next_open_day cache fuel (day + 1) := rfl

/-- The day-advancing loop returns the first qualifying day at or after its
start, provided one exists within the supplied fuel. -/
lemma next_open_day_eq_first (cache : CalendarCache) (d' : Nat) :
    ∀ (fuel start : Nat), start ≤ d' → d' - start < fuel →
      is_open_day cache d' = true →
      (∀ x, start ≤ x → x < d' → is_open_day cache x = false) →
      next_open_day cache fuel start = d' := by
  intro fuel
  induction fuel with
  | zero => intro start h1 h2 _ _; omega
  | succ n ih =>
      intro start h1 h2 hopen hfirst
      rw [next_open_day_succ]
      by_cases hs : start = d'
      · subst hs; rw [hopen]; simp
      · have hlt : start < d' := by omega
        rw [hfirst start le_rfl hlt]
        simp only [Bool.false_eq_true, if_false]
        exact ih (start + 1) (by omega) (by omega) hopen
          (fun x hx1 hx2 => hfirst x (by omega) hx2)

/-- On a calendar-`'closed'` date the phase is `CLOSED` at every time. -/
lemma get_market_phase_calendar_closed (hours : MarketHours) (cache : CalendarCache)
    (d : Nat) (t : Nat) (e : CalendarEntry)
    (hc : cache d = some e) (hs : e.status = "closed") :
    get_market_phase hours cache d t = .CLOSED := by
  unfold get_market_phase
  rw [hc]
  simp [hs]

/-- Claim C1 (counterexample): with the calendar `{2024-07-04 : closed}`
(2024-07-04 is a Thursday), `should_run` is `true` at 20:05 ET on
2024-07-04, so it is not `false` at every local time of a calendar-closed
date: the grace-window branch of the source checks only the phase, the
time window and the weekday, never the calendar. -/
theorem should_run_closed_calendar_cex :
    cacheJuly4 d20240704 = some { status := "closed" } ∧
    weekday d20240704 = 3 ∧
    should_run defaultHours cacheJuly4 d20240704 72300 = true := by decide

/-- Claim C1 (amended): on a calendar-closed date, `should_run` is `true`
exactly on the weekday grace window `[afClose, afClose + 15 min)` and
`false` everywhere else; the grace branch does not exclude calendar-closed
dates. -/
theorem should_run_closed_calendar (hours : MarketHours) (cache : CalendarCache)
    (d : Nat) (t : Nat) (e : CalendarEntry)
    (hc : cache d = some e) (hs : e.status = "closed") :
    should_run hours cache d t = true ↔
      (weekday d < 5 ∧ hours.after_hours_close ≤ t ∧
        t < (hours.after_hours_close + GRACE_PERIOD_MINUTES * 60) % 86400) := by
  have hphase := get_market_phase_calendar_closed hours cache d t e hc hs
  unfold should_run is_market_open
  rw [hphase]
  simp only [reduceIte, Bool.false_eq_true, if_false, if_true]
  split_ifs with h1 h2 <;> simp_all

/-- Witness for `should_run_closed_calendar` at 2024-07-04, 12:00 ET. -/
theorem should_run_closed_calendar_witness :
    should_run defaultHours cacheJuly4 d20240704 43200 = true ↔
      (weekday d20240704 < 5 ∧ defaultHours.after_hours_close ≤ 43200 ∧
        43200 < (defaultHours.after_hours_close + GRACE_PERIOD_MINUTES * 60) % 86400) :=
  should_run_closed_calendar defaultHours cacheJuly4 d20240704 43200
    { status := "closed" } (by decide) rfl

/-- Claim C2 (counterexample): with an `early_close` entry lacking a close
time on 2024-07-02 (a Tuesday), 17:00 ET lies in `[afOpen, afClose)` of a
non-weekend date yet the phase is `CLOSED`, not `AFTER_HOURS`: the source
stays inside the early-close branch with
`effective_regular_close = hours.regular_close` instead of falling
through to the regular weekday rules. -/
theorem phase_early_close_no_time_cex :
    cacheEarlyNoTime 19906 = some { status := "early_close" } ∧
    weekday 19906 < 5 ∧
    defaultHours.after_hours_open ≤ 61200 ∧ 61200 < defaultHours.after_hours_close ∧
    get_market_phase defaultHours cacheEarlyNoTime 19906 61200 = .CLOSED ∧
    MarketPhase.CLOSED ≠ .AFTER_HOURS := by decide

/-- Claim C2 (amended): on a date whose entry is `early_close` with absent
`close_time`, the phase follows the early-close rules with effective close
`regular_close`: PreMarket on `[preOpen, regOpen)`, Regular on
`[regOpen, regClose)`, and Closed otherwise — in particular
`[afOpen, afClose)` is Closed (no after-hours), and the weekend check is
bypassed. -/
theorem phase_early_close_no_time (hours : MarketHours) (cache : CalendarCache)
    (d : Nat) (t : Nat) (e : CalendarEntry)
    (hc : cache d = some e) (hs : e.status = "early_close") (hn : e.close_time = none) :
    get_market_phase hours cache d t =
      (if hours.pre_market_open ≤ t ∧ t < hours.regular_open then .PRE_MARKET
       else if hours.regular_open ≤ t ∧ t < hours.regular_close then .REGULAR
       else .CLOSED) := by
  unfold get_market_phase
  simp only [hc]
  rw [if_neg (by rw [hs]; decide), if_pos hs, hn]
  simp

/-- Witness for `phase_early_close_no_time` at 2024-07-02, 17:00 ET. -/
theorem phase_early_close_no_time_witness :
    get_market_phase defaultHours cacheEarlyNoTime 19906 61200 =
      (if defaultHours.pre_market_open ≤ 61200 ∧ 61200 < defaultHours.regular_open then .PRE_MARKET
       else if defaultHours.regular_open ≤ 61200 ∧ 61200 < defaultHours.regular_close then .REGULAR
       else .CLOSED) :=
  phase_early_close_no_time defaultHours cacheEarlyNoTime 19906 61200
    { status := "early_close" } (by decide) rfl rfl

/-- Claim C5 (counterexample): with the calendar `{2024-07-04 : closed}`,
at 02:00 ET on 2024-07-04 the code returns 7200 s — the distance to the
closed day's **own** `preOpen` — although the next non-weekend
non-closed day is 2024-07-05, whose `preOpen` is 93600 s away. -/
theorem time_until_next_open_closed_cex :
    cacheJuly4 d20240704 = some { status := "closed" } ∧
    is_open_day cacheJuly4 (d20240704 + 1) = true ∧
    time_until_next_open defaultHours cacheJuly4 10 d20240704 7200 = 7200 ∧
    (instantSec (d20240704 + 1) defaultHours.pre_market_open : Int) -
      (instantSec d20240704 7200 : Int) = 93600 ∧
    (7200 : Int) ≠ 93600 := by decide

/-- Claim C5 (amended): on a calendar-closed date, for instants at or
after the day's own `preOpen`, `time_until_next_open` returns the distance
to `preOpen` of the first later day that is neither a weekend nor
calendar-closed; for instants **before** the day's own `preOpen` it
returns the distance to that closed day's own `preOpen`. -/
theorem time_until_next_open_closed_calendar (hours : MarketHours)
    (cache : CalendarCache) (fuel : Nat) (d : Nat) (t : Nat)
    (e : CalendarEntry) (d' : Nat)
    (hc : cache d = some e) (hs : e.status = "closed")
    (hopen : is_open_day cache d' = true) (hlt : d < d')
    (hfirst : ∀ x, d < x → x < d' → is_open_day cache x = false)
    (hfuel : d' - (d + 1) < fuel) :
    (t < hours.pre_market_open →
      time_until_next_open hours cache fuel d t =
        (hours.pre_market_open : Int) - (t : Int)) ∧
    (hours.pre_market_open ≤ t →
      time_until_next_open hours cache fuel d t =
        (instantSec d' hours.pre_market_open : Int) - (instantSec d t : Int)) := by
  have hnext : next_open_day cache fuel (d + 1) = d' :=
    next_open_day_eq_first cache d' fuel (d + 1) (by omega) hfuel hopen
      (fun x hx1 hx2 => hfirst x (by omega) hx2)
  simp only [time_until_next_open, instantSec]
  constructor
  · intro ht
    rw [if_pos (by omega)]
    push_cast
    ring
  · intro ht
    rw [if_neg (by omega), hnext]

/-- Witness for `time_until_next_open_closed_calendar` on 2024-07-04 at
21:00 ET, with next open day 2024-07-05. -/
theorem time_until_next_open_closed_calendar_witness :
    time_until_next_open defaultHours cacheJuly4 10 d20240704 75600 =
      (instantSec (d20240704 + 1) defaultHours.pre_market_open : Int) -
        (instantSec d20240704 75600 : Int) :=
  (time_until_next_open_closed_calendar defaultHours cacheJuly4 10 d20240704 75600
    { status := "closed" } (d20240704 + 1) (by decide) rfl (by decide) (by omega)
    (fun x h1 h2 => by omega) (by omega)).2 (by decide)

/-- Rounding of `a / b` to the nearest integer, ties to even
(the rounding CPython applies when converting a seconds value to the
microsecond field of a `datetime`). -/
def round_half_even (a b : Nat) : Nat :=
  let q := a / b
  let r := a % b
  if b < 2 * r then q + 1
  else if 2 * r < b then q
  else if q % 2 = 0 then q else q + 1

/-- `MarketDataRepository._ns_to_datetime` on a present timestamp, as
microseconds since the Unix epoch. The source computes
`datetime.fromtimestamp(ns / 1_000_000_000.0, tz=utc)`: a Python
`datetime` carries whole microseconds, and `fromtimestamp` rounds its
seconds argument to microseconds half-to-even, so the mapping lands on
`round_half_even ns 1000` microseconds. (The float64 division perturbs
the value by fractions of a microsecond — about 0.07 µs at the
1.7·10⁹ s magnitude used in the theorems below — too little to cross the
rounding boundary there; the embedding uses the exact quotient.) -/
def ns_to_datetime (ns : Nat) : Nat := round_half_even ns 1000

/-- Nanoseconds of the UTC instant represented by a `datetime` value
(microseconds since the epoch): the finest granularity it can carry. -/
def datetime_to_ns (us : Nat) : Nat := us * 1000

/-- Python `str(x)` on an optional string: the literal `"None"` when the
value is absent. -/
def py_str : Option String → String
  | none => "None"
  | some s => s

/-- Python falsiness of an optional integer (`if not sip_ts`): true for
a missing value and for `0`. -/
def py_falsy_nat : Option Nat → Bool
  | none => true
  | some n => n == 0

/-- A trade record in wire form (`dict` fields read by `save_trades`;
`dict.get` of an absent key is `none`). -/
structure WireTrade where
  sip_timestamp : Option Nat := none
  price : Option Rat := none
  size : Option Rat := none
  exchange : Option Int := none
  conditions : Option (List Int) := none
  correction : Option Int := none
  tape : Option Int := none
  trf_id : Option Int := none
  trf_timestamp : Option Int := none
  participant_timestamp : Option Int := none
  id : Option String := none
  sequence_number : Option Int := none
deriving DecidableEq, Repr

/-- A persisted `trades` row (`models.Trade` columns set by the
repository; the autoincrement surrogate key is omitted). `time` is in
microseconds since the epoch. -/
structure TradeRow where
  time : Nat
  ticker : String
  price : Option Rat
  size : Option Rat
  exchange : Option Int
  conditions : Option (List Int)
  correction : Option Int
  tape : Option Int
  trf_id : Option Int
  trf_timestamp : Option Int
  participant_timestamp : Option Int
  massive_trade_id : Option String
  sequence_number : Option Int
deriving DecidableEq, Repr

/-- A quote record in wire form (`dict` fields read by `save_quotes`). -/
structure WireQuote where
  sip_timestamp : Option Nat := none
  bid_price : Option Rat := none
  bid_size : Option Rat := none
  bid_exchange : Option Int := none
  ask_price : Option Rat := none
  ask_size : Option Rat := none
  ask_exchange : Option Int := none
  conditions : Option (List Int) := none
  indicators : Option (List Int) := none
  participant_timestamp : Option Int := none
  sequence_number : Option Int := none
  tape : Option Int := none
deriving DecidableEq, Repr

/-- A persisted `quotes` row (`models.Quote` columns set by the
repository). -/
structure QuoteRow where
  time : Nat
  ticker : String
  bid_price : Option Rat
  bid_size : Option Rat
  bid_exchange : Option Int
  ask_price : Option Rat
  ask_size : Option Rat
  ask_exchange : Option Int
  conditions : Option (List Int)
  indicators : Option (List Int)
  participant_timestamp : Option Int
  sequence_number : Option Int
  tape : Option Int
deriving DecidableEq, Repr

/-- The record-building loop body of `save_trades` (source lines 57-79):
a record whose `sip_timestamp` is falsy is skipped (`continue`);
otherwise every named field is copied, `time` is the converted
timestamp, `ticker` is the caller-supplied symbol, and
`massive_trade_id` is `str(t.get("id"))` — unconditionally, so an
absent `id` becomes the string `"None"`. -/
def trade_to_record (ticker : String) (t : WireTrade) : Option TradeRow :=
  if py_falsy_nat t.sip_timestamp then none
  else some
    { time := ns_to_datetime (t.sip_timestamp.getD 0)
      ticker := ticker
      price := t.price
      size := t.size
      exchange := t.exchange
      conditions := t.conditions
      correction := t.correction
      tape := t.tape
      trf_id := t.trf_id
      trf_timestamp := t.trf_timestamp
      participant_timestamp := t.participant_timestamp
      massive_trade_id := some (py_str t.id)
      sequence_number := t.sequence_number }

/-- The record-building loop body of `save_quotes` (source lines 111-132). -/
def quote_to_record (ticker : String) (q : WireQuote) : Option QuoteRow :=
  if py_falsy_nat q.sip_timestamp then none
  else some
    { time := ns_to_datetime (q.sip_timestamp.getD 0)
      ticker := ticker
      bid_price := q.bid_price
      bid_size := q.bid_size
      bid_exchange := q.bid_exchange
      ask_price := q.ask_price
      ask_size := q.ask_size
      ask_exchange := q.ask_exchange
      conditions := q.conditions
      indicators := q.indicators
      participant_timestamp := q.participant_timestamp
      sequence_number := q.sequence_number
      tape := q.tape }

/-- The store contract used by the repository (spec §3 Uniqueness /
§4.3 Insert semantics): a multi-row `INSERT … ON CONFLICT (constraint)
DO NOTHING` processes the records in order, skips any record whose
conflict key already exists in the table (rows inserted earlier in the
same statement included), and reports the number of rows actually
inserted. -/
def insert_do_nothing {R K : Type} [DecidableEq K] (key : R → K) :
    List R → List R → List R × Nat
  | table, [] => (table, 0)
  | table, r :: rest =>
      if table.any (fun x => decide (key x = key r)) then
        insert_do_nothing key table rest
      else
        let res := insert_do_nothing key (table ++ [r]) rest
        (res.1, res.2 + 1)

/-- The conflict target of `uq_trades_unique_trade`:
`(time, ticker, massive_trade_id)`. -/
def trade_key (r : TradeRow) : Nat × String × Option String :=
  (r.time, r.ticker, r.massive_trade_id)

/-- The conflict target of `uq_quotes_unique_quote`:
`(time, ticker, sequence_number)`. -/
def quote_key (r : QuoteRow) : Nat × String × Option Int :=
  (r.time, r.ticker, r.sequence_number)

/-- The shared shape of `save_trades` and `save_quotes`: empty batch →
0; map the batch, dropping falsy timestamps; no surviving record → 0;
otherwise one conflict-ignoring bulk insert. -/
def save_batch {W R K : Type} [DecidableEq K] (to_record : W → Option R)
    (key : R → K) (table : List R) (batch : List W) : List R × Nat :=
  if batch.isEmpty then (table, 0)
  else
    let records := batch.filterMap to_record
    if records.isEmpty then (table, 0)
    else insert_do_nothing key table records

/-- `MarketDataRepository.save_trades` against a table state. -/
def save_trades (ticker : String) (table : List TradeRow)
    (trades_data : List WireTrade) : List TradeRow × Nat :=
  save_batch (trade_to_record ticker) trade_key table trades_data

/-- `MarketDataRepository.save_quotes` against a table state. -/
def save_quotes (ticker : String) (table : List QuoteRow)
    (quotes_data : List WireQuote) : List QuoteRow × Nat :=
  save_batch (quote_to_record ticker) quote_key table quotes_data

lemma insert_do_nothing_mem {R K : Type} [DecidableEq K] (key : R → K) :
    ∀ (recs table : List R) (x : R), x ∈ table →
      x ∈ (insert_do_nothing key table recs).1 := by
  intro recs
  induction recs with
  | nil => intro table x hx; exact hx
  | cons r rest ih =>
      intro table x hx
      unfold insert_do_nothing
      split
      · exact ih table x hx
      · exact ih (table ++ [r]) x (List.mem_append_left _ hx)

lemma insert_do_nothing_key_present {R K : Type} [DecidableEq K] (key : R → K) :
    ∀ (recs table : List R) (r : R), r ∈ recs →
      ∃ x ∈ (insert_do_nothing key table recs).1, key x = key r := by
  intro recs
  induction recs with
  | nil => intro table r hr; cases hr
  | cons r' rest ih =>
      intro table r hr
      unfold insert_do_nothing
      rcases List.mem_cons.mp hr with hr' | hr'
      · subst hr'
        split
        · rename_i hany
          rcases List.any_eq_true.mp hany with ⟨x, hx, hkey⟩
          exact ⟨x, insert_do_nothing_mem key rest table x hx, of_decide_eq_true hkey⟩
        · exact ⟨r, insert_do_nothing_mem key rest (table ++ [r]) r
            (List.mem_append_right _ (List.mem_singleton_self r)), rfl⟩
      · split
        · exact ih table r hr'
        · exact ih (table ++ [r']) r hr'

lemma insert_do_nothing_noop {R K : Type} [DecidableEq K] (key : R → K) :
    ∀ (recs table : List R),
      (∀ r ∈ recs, ∃ x ∈ table, key x = key r) →
      insert_do_nothing key table recs = (table, 0) := by
  intro recs
  induction recs with
  | nil => intro table _; rfl
  | cons r rest ih =>
      intro table hcov
      unfold insert_do_nothing
      rcases hcov r (List.mem_cons_self r rest) with ⟨x, hx, hkey⟩
      rw [if_pos (List.any_eq_true.mpr ⟨x, hx, decide_eq_true hkey⟩)]
      exact ih table (fun r' hr' => hcov r' (List.mem_cons_of_mem r hr'))

/-- Re-running `save_batch` with the batch it just saved changes nothing
and reports 0 inserted rows. -/
lemma save_batch_idempotent {W R K : Type} [DecidableEq K]
    (to_record : W → Option R) (key : R → K) (table : List R) (batch : List W) :
    save_batch to_record key (save_batch to_record key table batch).1 batch =
      ((save_batch to_record key table batch).1, 0) := by
  unfold save_batch
  by_cases hb : batch.isEmpty
  · simp [hb]
  · simp only [hb, Bool.false_eq_true, if_false]
    by_cases hrec : (batch.filterMap to_record).isEmpty
    · simp [hrec]
    · simp only [hrec, Bool.false_eq_true, if_false]
      exact insert_do_nothing_noop key (batch.filterMap to_record) _
        (fun r hr => insert_do_nothing_key_present key (batch.filterMap to_record) table r hr)

/-- Claim C3: saving the same batch twice through `save_trades`
(resp. `save_quotes`) yields the same table state as saving it once —
the rows after the second save are identical and its affected-row count
is 0, because re-insertion of a record matching an existing
`(time, ticker, massive_trade_id)` / `(time, ticker, sequence_number)`
tuple is a no-op under the conflict-ignore insert. -/
theorem save_twice_idempotent (ticker : String) (ttable : List TradeRow)
    (tbatch : List WireTrade) (qtable : List QuoteRow) (qbatch : List WireQuote) :
    save_trades ticker (save_trades ticker ttable tbatch).1 tbatch =
      ((save_trades ticker ttable tbatch).1, 0) ∧
    save_quotes ticker (save_quotes ticker qtable qbatch).1 qbatch =
      ((save_quotes ticker qtable qbatch).1, 0) :=
  ⟨save_batch_idempotent (trade_to_record ticker) trade_key ttable tbatch,
   save_batch_idempotent (quote_to_record ticker) quote_key qtable qbatch⟩

lemma trade_to_record_falsy (ticker : String) (w : WireTrade)
    (h : py_falsy_nat w.sip_timestamp = true) :
    trade_to_record ticker w = none := by
  simp [trade_to_record, h]

lemma quote_to_record_falsy (ticker : String) (q : WireQuote)
    (h : py_falsy_nat q.sip_timestamp = true) :
    quote_to_record ticker q = none := by
  simp [quote_to_record, h]

/-- A batch every record of which maps to nothing produces no insert and
returns 0. -/
lemma save_batch_all_none {W R K : Type} [DecidableEq K]
    (to_record : W → Option R) (key : R → K) (table : List R) (batch : List W)
    (h : ∀ w ∈ batch, to_record w = none) :
    save_batch to_record key table batch = (table, 0) := by
  unfold save_batch
  by_cases hb : batch.isEmpty
  · simp [hb]
  · have hnil : batch.filterMap to_record = [] := List.filterMap_eq_nil_iff.mpr h
    simp [hb, hnil]

/-- Claim C10: a wire record whose `sip_timestamp` is present but equal
to 0 is skipped by `save_trades` and `save_quotes` exactly like a record
with `sip_timestamp` absent (the presence test `if not sip_ts` is a
falsiness check), and a batch consisting only of such records produces
no insert and returns 0. -/
theorem zero_sip_timestamp_skipped (ticker : String) (ttable : List TradeRow)
    (qtable : List QuoteRow) (tbatch : List WireTrade) (qbatch : List WireQuote)
    (ht : ∀ w ∈ tbatch, w.sip_timestamp = none ∨ w.sip_timestamp = some 0)
    (hq : ∀ w ∈ qbatch, w.sip_timestamp = none ∨ w.sip_timestamp = some 0) :
    save_trades ticker ttable tbatch = (ttable, 0) ∧
    save_quotes ticker qtable qbatch = (qtable, 0) ∧
    (∀ w : WireTrade, trade_to_record ticker { w with sip_timestamp := some 0 } =
      trade_to_record ticker { w with sip_timestamp := none }) ∧
    (∀ q : WireQuote, quote_to_record ticker { q with sip_timestamp := some 0 } =
      quote_to_record ticker { q with sip_timestamp := none }) := by
  refine ⟨?_, ?_, ?_, ?_⟩
  · refine save_batch_all_none _ _ _ _ (fun w hw => ?_)
    refine trade_to_record_falsy ticker w ?_
    rcases ht w hw with h | h <;> rw [h] <;> rfl
  · refine save_batch_all_none _ _ _ _ (fun q hq' => ?_)
    refine quote_to_record_falsy ticker q ?_
    rcases hq q hq' with h | h <;> rw [h] <;> rfl
  · intro w
    rw [trade_to_record_falsy ticker { w with sip_timestamp := some 0 } rfl,
      trade_to_record_falsy ticker { w with sip_timestamp := none } rfl]
  · intro q
    rw [quote_to_record_falsy ticker { q with sip_timestamp := some 0 } rfl,
      quote_to_record_falsy ticker { q with sip_timestamp := none } rfl]

/-- A one-record batch carrying `sip_timestamp = 0`. -/
def tradeZeroTs : WireTrade := { sip_timestamp := some 0, price := some 190, size := some 10 }

/-- A one-record quote batch with `sip_timestamp` absent. -/
def quoteNoTs : WireQuote := { bid_price := some 100 }

/-- Witness for `zero_sip_timestamp_skipped` on one-record batches. -/
theorem zero_sip_timestamp_skipped_witness :
    save_trades "AAPL" [] [tradeZeroTs] = ([], 0) ∧
    save_quotes "AAPL" [] [quoteNoTs] = ([], 0) :=
  ⟨(zero_sip_timestamp_skipped "AAPL" [] [] [tradeZeroTs] [quoteNoTs]
      (by decide) (by decide)).1,
   (zero_sip_timestamp_skipped "AAPL" [] [] [tradeZeroTs] [quoteNoTs]
      (by decide) (by decide)).2.1⟩

/-- A trade record whose optional `id` field is absent. -/
def tradeNoId : WireTrade :=
  { sip_timestamp := some 1700000000123456789, price := some 190, size := some 10 }

/-- Claim C6 (counterexample): mapping a trade that lacks `id` persists
`massive_trade_id = "None"` (the Python string form of `None` produced
by the unconditional `str(t.get("id"))`), not a null column. -/
theorem trade_missing_id_cex :
    tradeNoId.id = none ∧
    (trade_to_record "AAPL" tradeNoId).map TradeRow.massive_trade_id =
      some (some "None") ∧
    some (some "None") ≠ some (none : Option String) := by decide

/-- Claim C6 (amended): every persisted trade row carries
`massive_trade_id = str(id)` — the string form of the id when present
and the literal string `"None"` when absent; it is never null. -/
theorem trade_vendor_id_always_str (ticker : String) (w : WireTrade) :
    (trade_to_record ticker w).all
      (fun r => r.massive_trade_id == some (py_str w.id)) = true := by
  by_cases h : py_falsy_nat w.sip_timestamp <;> simp [trade_to_record, h]

/-- Claim C4 (counterexample): the nanosecond instant
`1_700_000_000_123_456_789` (2023-11-14T22:13:20.123456789Z) is not what
the mapping produces: a Python `datetime` carries whole microseconds, so
the mapped instant is `…123457000` ns, not `…123456789` ns. -/
theorem ns_to_datetime_precision_cex :
    datetime_to_ns (ns_to_datetime 1700000000123456789) = 1700000000123457000 ∧
    (1700000000123457000 : Nat) ≠ 1700000000123456789 := by decide

/-- Claim C4 (amended): the mapping divides the nanosecond timestamp by
10⁹ seconds but retains only microsecond precision (the granularity of
`datetime`): `nanosToUtcInstant(1_700_000_000_123_456_789)` is
2023-11-14T22:13:20.123457Z, the half-even microsecond rounding of the
exact instant; every mapped instant is a whole number of microseconds
and lies within half a microsecond of the exact quotient. -/
theorem ns_to_datetime_microsecond_precision :
    ns_to_datetime 1700000000123456789 = 1700000000123457 ∧
    (∀ ns : Nat, datetime_to_ns (ns_to_datetime ns) % 1000 = 0) ∧
    (∀ ns : Nat, (datetime_to_ns (ns_to_datetime ns) : Int) - (ns : Int) ≤ 500 ∧
      (ns : Int) - (datetime_to_ns (ns_to_datetime ns) : Int) ≤ 500) := by
  refine ⟨by decide, fun ns => by simp [datetime_to_ns, Nat.mul_mod_left], fun ns => ?_⟩
  simp only [ns_to_datetime, round_half_even, datetime_to_ns]
  have h1 := Nat.div_add_mod ns 1000
  have h2 : ns % 1000 < 1000 := Nat.mod_lt _ (by norm_num)
  split_ifs <;> push_cast <;> omega

/-- The errors `_get` can raise: `httpx.NetworkError`,
`httpx.TimeoutException`, and `httpx.HTTPStatusError`
(from `raise_for_status` on a status ≥ 400). -/
inductive HttpErr where
  | network
  | timeout
  | http_status (code : Nat)
deriving DecidableEq, Repr

/-- `retry_if_exception_type((NetworkError, TimeoutException,
HTTPStatusError))`: which raised errors the decorator retries. -/
def retriable : HttpErr → Bool
  | .network => true
  | .timeout => true
  | .http_status _ => true

/-- A transport-level HTTP response: status code and parsed JSON body. -/
structure HttpResponse (β : Type) where
  status : Nat
  body : β
deriving DecidableEq, Repr

/-- One attempt of the body of `_get` (source lines 74-76): performing
the transport call may raise; otherwise `raise_for_status` turns a
status ≥ 400 into an `http_status` error; otherwise the body is
returned. The transport is indexed by the attempt number. -/
def get_attempt {β : Type} (transport : Nat → Except HttpErr (HttpResponse β))
    (i : Nat) : Except HttpErr β :=
  match transport i with
  | .error e => .error e
  | .ok resp => if 400 ≤ resp.status then .error (.http_status resp.status) else .ok resp.body

/-- The `tenacity` retry driver around one `_get` call, modelled from
its documented semantics (`stop=stop_after_attempt(3)`,
`retry=retry_if_exception_type(...)`, `reraise=True`): `remaining` is
the number of further attempts allowed after the current one, `i` the
0-based attempt index. On the last allowed attempt the outcome is
returned (re-raised) as is; a non-retriable error propagates at once.
Backoff sleeps (`wait_exponential(multiplier=1, min=1, max=10)`) do not
affect the outcome and are not modelled. Returns the outcome and the
number of attempts performed. -/
def retry_loop {β : Type} (transport : Nat → Except HttpErr (HttpResponse β)) :
    Nat → Nat → Except HttpErr β × Nat
  | 0, i => (get_attempt transport i, i + 1)
  | remaining + 1, i =>
      match get_attempt transport i with
      | .ok v => (.ok v, i + 1)
      | .error e =>
          if retriable e then retry_loop transport remaining (i + 1)
          else (.error e, i + 1)

/-- `RESTClient._get` under the `@retry` decorator: up to three
attempts. -/
def rest_get {β : Type} (transport : Nat → Except HttpErr (HttpResponse β)) :
    Except HttpErr β × Nat :=
  retry_loop transport 2 0

lemma retriable_eq_true (e : HttpErr) : retriable e = true := by
  cases e <;> rfl

lemma retry_loop_succ_error {β : Type} (transport : Nat → Except HttpErr (HttpResponse β))
    (r i : Nat) (e : HttpErr) (he : get_attempt transport i = Except.error e) :
    retry_loop transport (r + 1) i =
      if retriable e then retry_loop transport r (i + 1) else (Except.error e, i + 1) := by
  simp only [retry_loop, he]

/-- Claim C7: when every attempt raises a retriable error, `_get`
performs exactly 3 attempts and then re-raises the last error. -/
theorem rest_get_three_attempts {β : Type}
    (transport : Nat → Except HttpErr (HttpResponse β))
    (h : ∀ i, i < 3 → ∃ e, get_attempt transport i = Except.error e) :
    rest_get transport = (get_attempt transport 2, 3) ∧
    ∃ e, (rest_get transport).1 = Except.error e := by
  obtain ⟨e0, h0⟩ := h 0 (by omega)
  obtain ⟨e1, h1⟩ := h 1 (by omega)
  obtain ⟨e2, h2⟩ := h 2 (by omega)
  have hmain : rest_get transport = (get_attempt transport 2, 3) := by
    unfold rest_get
    rw [retry_loop_succ_error transport 1 0 e0 h0, if_pos (retriable_eq_true e0),
      retry_loop_succ_error transport 0 1 e1 h1, if_pos (retriable_eq_true e1)]
    rfl
  exact ⟨hmain, ⟨e2, by rw [hmain, h2]⟩⟩

/-- A transport that raises a network error on every attempt. -/
def failTransport : Nat → Except HttpErr (HttpResponse Nat) :=
  fun _ => .error .network

/-- Witness for `rest_get_three_attempts` on an always-failing
transport. -/
theorem rest_get_three_attempts_witness :
    rest_get failTransport = (Except.error HttpErr.network, 3) :=
  (rest_get_three_attempts failTransport (fun _ _ => ⟨.network, rfl⟩)).1

/-- One page of a paginated response body: the `results` array and the
optional `next_url` continuation. -/
structure Page (α : Type) where
  results : List α
  next_url : Option String
deriving DecidableEq, Repr

/-- Python falsiness of the optional `next_url` string
(`if not data.get("next_url")`): absent or empty. -/
def url_falsy : Option String → Bool
  | none => true
  | some s => s.isEmpty

/-- `RESTClient._paginate` (source lines 78-103) against a pure server
mapping a `(url, params)` request to a page, given explicit fuel for the
unbounded `while True` loop (the theorems below assume the server chain
reaches a page with falsy `next_url` within fuel, which makes the fuel
branch unreachable). Returns the yielded items and the list of GET
requests performed, in order. Mirrors the source: break before yielding
when `results` is empty and `next_url` falsy; yield all of `results`;
break when `next_url` is falsy; otherwise continue at `next_url` with
`params = None`. -/
def paginate {α π : Type} (server : String → Option π → Page α) :
    Nat → String → Option π → List α × List (String × Option π)
  | 0, _, _ => ([], [])
  | fuel + 1, url, ps =>
      let data := server url ps
      if data.results.isEmpty && url_falsy data.next_url then ([], [(url, ps)])
      else if url_falsy data.next_url then (data.results, [(url, ps)])
      else
        let rest := paginate server fuel (data.next_url.getD "") none
        (data.results ++ rest.1, (url, ps) :: rest.2)

/-- The pagination chain starting at `(url, ps)` reaches a page with a
falsy `next_url` within `fuel` requests. -/
def paginate_stops {α π : Type} (server : String → Option π → Page α) :
    Nat → String → Option π → Bool
  | 0, _, _ => false
  | fuel + 1, url, ps =>
      let data := server url ps
      if url_falsy data.next_url then true
      else paginate_stops server fuel (data.next_url.getD "") none

lemma paginate_terminal {α π : Type} (server : String → Option π → Page α)
    (fuel : Nat) (url : String) (ps : Option π)
    (hf : url_falsy (server url ps).next_url = true) :
    paginate server (fuel + 1) url ps = ((server url ps).results, [(url, ps)]) := by
  unfold paginate
  by_cases he : (server url ps).results.isEmpty
  · rw [if_pos (by rw [he, hf]; rfl), List.isEmpty_iff.mp he]
  · rw [if_neg (by rw [hf]; simpa using he), if_pos hf]

lemma paginate_continue {α π : Type} (server : String → Option π → Page α)
    (fuel : Nat) (url : String) (ps : Option π)
    (hf : url_falsy (server url ps).next_url = false) :
    paginate server (fuel + 1) url ps =
      ((server url ps).results ++
        (paginate server fuel ((server url ps).next_url.getD "") none).1,
       (url, ps) :: (paginate server fuel ((server url ps).next_url.getD "") none).2) := by
  simp only [paginate, hf, Bool.and_false, Bool.false_eq_true, if_false]

/-- Claim C8: whenever the page chain terminates (a page with absent or
empty `next_url` is reached within fuel), `_paginate` yields exactly the
concatenation of every visited page's `results`, in order; the first GET
is the entry request with its query parameters; every later GET carries
cleared parameters (`None`); and the visited requests stop exactly at
the first page whose `next_url` is absent or empty. In particular a
first page with empty `results` and no `next_url` yields zero items in
exactly one GET. -/
theorem paginate_spec {α π : Type} (server : String → Option π → Page α)
    (fuel : Nat) (url : String) (ps : Option π)
    (hstop : paginate_stops server fuel url ps = true) :
    (paginate server fuel url ps).1 =
      ((paginate server fuel url ps).2.map (fun q => (server q.1 q.2).results)).flatten ∧
    (paginate server fuel url ps).2.get? 0 = some (url, ps) ∧
    (∀ i q, (paginate server fuel url ps).2.get? (i + 1) = some q → q.2 = none) ∧
    (paginate server fuel url ps).2 ≠ [] ∧
    (∀ i q, (paginate server fuel url ps).2.get? i = some q →
      (url_falsy (server q.1 q.2).next_url = true ↔
        i = (paginate server fuel url ps).2.length - 1)) ∧
    (server url ps = ⟨[], none⟩ → paginate server fuel url ps = ([], [(url, ps)])) := by
  induction fuel generalizing url ps with
  | zero => exact absurd hstop (by simp [paginate_stops])
  | succ n ih =>
      by_cases hf : url_falsy (server url ps).next_url = true
      · rw [paginate_terminal server n url ps hf]
        refine ⟨by simp, rfl, ?_, by simp, ?_, ?_⟩
        · intro i q hq
          rw [List.get?_cons_succ] at hq
          simp at hq
        · intro i q hq
          cases i with
          | zero =>
              rw [List.get?_cons_zero] at hq
              injection hq with hq
              subst hq
              simpa using hf
          | succ j =>
              rw [List.get?_cons_succ] at hq
              simp at hq
        · intro hserver
          rw [hserver]
      · have hf' : url_falsy (server url ps).next_url = false := by
          simpa using hf
        have hstop' : paginate_stops server n ((server url ps).next_url.getD "") none = true := by
          unfold paginate_stops at hstop
          rwa [if_neg (by rw [hf']; simp)] at hstop
        obtain ⟨ih1, ih2, ih3, ih4, ih5, _⟩ := ih ((server url ps).next_url.getD "") none hstop'
        have hlen : 0 < (paginate server n ((server url ps).next_url.getD "") none).2.length :=
          List.length_pos.mpr ih4
        rw [paginate_continue server n url ps hf']
        refine ⟨?_, rfl, ?_, by simp, ?_, ?_⟩
        · simp only [List.map_cons, List.flatten_cons]
          rw [ih1]
        · intro i q hq
          rw [List.get?_cons_succ] at hq
          cases i with
          | zero => rw [ih2] at hq; injection hq with hq; subst hq; rfl
          | succ j => exact ih3 j q hq
        · intro i q hq
          cases i with
          | zero =>
              rw [List.get?_cons_zero] at hq
              injection hq with hq
              subst hq
              rw [hf']
              simp only [List.length_cons]
              constructor
              · intro hfalse; cases hfalse
              · intro h0; omega
          | succ j =>
              rw [List.get?_cons_succ] at hq
              rw [ih5 j q hq]
              simp only [List.length_cons]
              omega
        · intro hserver
          rw [hserver] at hf'
          simp [url_falsy] at hf'

/-- A two-page server: the entry endpoint links to a continuation page
that terminates the chain. -/
def twoPageServer : String → Option Unit → Page Nat :=
  fun u _ =>
    if u = "/trades/AAPL" then { results := [1, 2], next_url := some "https://x/page2" }
    else { results := [3], next_url := none }

/-- Witness for `paginate_spec` on the two-page server. -/
theorem paginate_spec_witness :
    (paginate twoPageServer 5 "/trades/AAPL" (some ())).1 =
      ((paginate twoPageServer 5 "/trades/AAPL" (some ())).2.map
        (fun q => (twoPageServer q.1 q.2).results)).flatten ∧
    (paginate twoPageServer 5 "/trades/AAPL" (some ())).2.get? 0 =
      some ("/trades/AAPL", some ()) :=
  ⟨(paginate_spec twoPageServer 5 "/trades/AAPL" (some ()) (by decide)).1,
   (paginate_spec twoPageServer 5 "/trades/AAPL" (some ()) (by decide)).2.1⟩

/-- The fallible operations one `collect_ticker(session, client, ticker)`
call performs, in source order: the buffered trade fetch (the
`list_trades` loop with its 2000-record cap, which can raise at any
point of the iteration and otherwise produces the buffer), the trade
save, the buffered quote fetch, and the quote save. `E` is the type of
Python exceptions the `except Exception` clause catches. -/
structure TickerOps (E : Type) where
  fetch_trades : Except E (List WireTrade)
  save_trades_op : List WireTrade → Except E Nat
  fetch_quotes : Except E (List WireQuote)
  save_quotes_op : List WireQuote → Except E Nat

/-- How one `collect_ticker` call ends: the debug-logged completion, or
an error-logged caught exception. There is no third case: the
`try`/`except Exception` spans the whole body, so no exception leaves
the function. -/
inductive TickerOutcome (E : Type) where
  | completed (trades quotes : Nat)
  | logged (e : E)
deriving DecidableEq, Repr

/-- `DataCollector.collect_ticker` (source lines 72-112): fetch trades,
save them when the buffer is non-empty, fetch quotes, save them when
non-empty; any raised exception becomes a `logged` outcome. -/
def collect_ticker {E : Type} (ops : TickerOps E) : TickerOutcome E :=
  match ops.fetch_trades with
  | .error e => .logged e
  | .ok trades_buffer =>
    match (if trades_buffer.isEmpty then Except.ok 0 else ops.save_trades_op trades_buffer) with
    | .error e => .logged e
    | .ok _ =>
      match ops.fetch_quotes with
      | .error e => .logged e
      | .ok quotes_buffer =>
        match (if quotes_buffer.isEmpty then Except.ok 0 else ops.save_quotes_op quotes_buffer) with
        | .error e => .logged e
        | .ok _ => .completed trades_buffer.length quotes_buffer.length

/-- `DataCollector.run_cycle` at the current ET instant `(d, t)`: skip
when `should_run` is false; otherwise call `collect_ticker` for every
ticker of the universe in order, each against its own session and
per-ticker operations. -/
def run_cycle {E : Type} (hours : MarketHours) (cache : CalendarCache)
    (d : Nat) (t : Nat) (tickers : List String) (ops : String → TickerOps E) :
    Option (List (TickerOutcome E)) :=
  if !(should_run hours cache d t) then none
  else some (tickers.map (fun tk => collect_ticker (ops tk)))

/-- Claim C9: exceptions during the collection of a single ticker are
caught inside `collect_ticker` — every execution ends in a `completed`
or `logged` outcome and a raising step yields `logged`, never a
propagated error — and a cycle that runs processes every ticker of the
universe, the i-th outcome depending only on the i-th ticker's own
operations, so a failing ticker never prevents the remaining tickers
from being processed. -/
theorem collect_ticker_catches_all (E : Type) (hours : MarketHours)
    (cache : CalendarCache) (d : Nat) (t : Nat) (tickers : List String)
    (ops : String → TickerOps E) :
    (should_run hours cache d t = true →
      run_cycle hours cache d t tickers ops =
        some (tickers.map (fun tk => collect_ticker (ops tk)))) ∧
    (∀ i, (tickers.map (fun tk => collect_ticker (ops tk))).get? i =
      (tickers.get? i).map (fun tk => collect_ticker (ops tk))) ∧
    (∀ (e : E) (st : List WireTrade → Except E Nat)
        (fq : Except E (List WireQuote)) (sq : List WireQuote → Except E Nat),
      collect_ticker (TickerOps.mk (Except.error e) st fq sq) = .logged e) ∧
    (∀ ops' : TickerOps E, (∃ a b, collect_ticker ops' = .completed a b) ∨
      (∃ e, collect_ticker ops' = .logged e)) := by
  refine ⟨?_, ?_, ?_, ?_⟩
  · intro h
    unfold run_cycle
    rw [h]
    rfl
  · intro i
    exact List.get?_map _ _ _
  · intro e st fq sq
    rfl
  · intro ops'
    unfold collect_ticker
    rcases ops'.fetch_trades with e | tb
    · exact Or.inr ⟨e, rfl⟩
    · dsimp only
      rcases (if tb.isEmpty then Except.ok 0 else ops'.save_trades_op tb) with e | n
      · exact Or.inr ⟨e, rfl⟩
      · dsimp only
        rcases ops'.fetch_quotes with e | qb
        · exact Or.inr ⟨e, rfl⟩
        · dsimp only
          rcases (if qb.isEmpty then Except.ok 0 else ops'.save_quotes_op qb) with e | m
          · exact Or.inr ⟨e, rfl⟩
          · exact Or.inl ⟨tb.length, qb.length, rfl⟩

/-- A calendar with no special days. -/
def cacheEmpty : CalendarCache := fun _ => none

/-- A two-ticker universe where the first ticker's fetch raises and the
second succeeds. -/
def opsMixed : String → TickerOps String := fun tk =>
  if tk = "AAPL" then
    { fetch_trades := .error "boom", save_trades_op := fun _ => .ok 0,
      fetch_quotes := .ok [], save_quotes_op := fun _ => .ok 0 }
  else
    { fetch_trades := .ok [tradeNoId], save_trades_op := fun _ => .ok 1,
      fetch_quotes := .ok [], save_quotes_op := fun _ => .ok 0 }

/-- Witness for `collect_ticker_catches_all`: a regular-hours Tuesday
cycle over `["AAPL", "MSFT"]` where AAPL's fetch raises — the cycle
still maps over both tickers. -/
theorem collect_ticker_catches_all_witness :
    run_cycle defaultHours cacheEmpty 19906 43200 ["AAPL", "MSFT"] opsMixed =
      some (["AAPL", "MSFT"].map (fun tk => collect_ticker (opsMixed tk))) :=
  (collect_ticker_catches_all String defaultHours cacheEmpty 19906 43200
    ["AAPL", "MSFT"] opsMixed).1 (by decide)

end Bronco
